import Mathlib

/-!
Shallow embedding of rclone's `fs/accounting/accounting.go` (package
`accounting`): the `Account` transfer-accounting reader, its read/close/
progress/speed/eta operations, buffering control (`WithBuffer`,
`StopBuffering`, `UpdateReader`), the `Accounter` wrap/unwrap protocol
(`accountStream`, `WrapStream`, `UnWrap`) and the statistics rendering
fragments of `Account.String`.

Modelling conventions:
- Go `int` / `int64` counters are modelled as `Int` (overflow is not at
  issue in any claim); byte counts returned by a single read are `Nat`
  (the `io.Reader` contract guarantees `0 ≤ n`).
- Go `float64` statistics arithmetic is modelled exactly over `ℚ`;
  `int(x)` conversion is truncation toward zero (`ratTrunc`).
- Time is a `Nat` timestamp in nanoseconds passed in where the code calls
  `time.Now()`; `time.Time.IsZero` becomes an `Option Nat` sentinel.
- External side effects (the global stats registry/counter, the bandwidth
  limiter, `close(acc.exit)`, the underlying `Close`, `Abandon`, and error
  logging) are recorded in a ghost event list on the account state.
- Readers are values of the inductive `Rdr`: a `plain` reader carries the
  script of `(n, err)` results its successive reads produce; `async` is
  the external asyncreader buffering decorator; `acctStream` is the
  `accountStream` adapter owned by the account threaded through the read
  semantics.
-/

/-- Errors returned by reads and closes; `eof` stands for `io.EOF`. -/
inductive Err where
  | eof
  | other (code : Nat)
deriving DecidableEq

/-- One read result: the byte count `n` and the error (`none` = nil). -/
abbrev RRes := Nat × Option Err

/-- Readers, as the accounting layer sees them.  `plain id rs` is an
arbitrary reader that does not implement `Accounter`, scripted to return
the results `rs` on successive reads; `async inner buffers` is the stream
produced by `asyncreader.New(inner, buffers)`; `acctStream inner` is the
`accountStream{acc, inner}` adapter (the account itself is threaded
separately through the read semantics). -/
inductive Rdr where
  | plain (id : Nat) (rs : List RRes)
  | async (inner : Rdr) (buffers : Int)
  | acctStream (inner : Rdr)
deriving DecidableEq

/-- Ghost events recording calls into the external collaborators. -/
inductive Event where
  | inProgressSet (name : String)      -- Stats.inProgress.set(name, acc)
  | inProgressClear (name : String)    -- Stats.inProgress.clear(name)
  | statsBytes (n : Nat)               -- Stats.Bytes(n)
  | limitBandwidth (n : Nat)           -- limitBandwidth(n)
  | closeExit                          -- close(acc.exit)
  | closeUnderlying (s : Rdr)          -- acc.close.Close()
  | abandon (s : Rdr)                  -- asyncIn.Abandon()
  | errorf (name : String)             -- fs.Errorf(acc.name, ...)
deriving DecidableEq

/-- The `Account` struct (accounting.go lines 16-37).  `in`, `close` are
renamed `inS`, `closeS` (`in` is a Lean keyword); `avg` carries the
current value of the ewma moving average; `exitClosed` models whether
`close(exit)` has happened; `events` is the ghost effect log. -/
structure Account where
  inS : Rdr                 -- in io.Reader
  origIn : Rdr              -- origIn io.ReadCloser
  closeS : Rdr              -- close io.Closer
  size : Int                -- size int64
  name : String             -- name string
  bytes : Int               -- bytes int64
  start : Option Nat        -- start time.Time (none = zero value)
  lpTime : Nat              -- lpTime time.Time
  lpBytes : Int             -- lpBytes int
  avg : ℚ                   -- avg ewma.MovingAverage (its current Value())
  closed : Bool             -- closed bool
  exitClosed : Bool         -- exit chan struct: closed?
  withBuf : Bool            -- withBuf bool
  events : List Event       -- ghost log of external effects
deriving DecidableEq

/-- External configuration and collaborators (spec section 6): the global
buffer-size budget `fs.Config.BufferSize`, the per-buffer-unit capacity
`asyncreader.BufferSize`, whether `asyncreader.New` succeeds, and the
rendered-filename budget `fs.Config.StatsFileNameLength`. -/
structure Env where
  bufferSize : Int
  asyncBufferSize : Int
  asyncNewOK : Rdr → Int → Bool
  statsFileNameLength : Nat

/-- `NewAccountSizeName` (lines 41-55): wraps `inr` as in/close/origIn,
zeroes the counters, registers in the in-progress registry.  `now` is the
construction time used for `lpTime`. -/
def NewAccountSizeName (inr : Rdr) (size : Int) (name : String) (now : Nat) : Account :=
  { inS := inr, closeS := inr, origIn := inr, size := size, name := name,
    bytes := 0, start := none, lpTime := now, lpBytes := 0, avg := 0,
    closed := false, exitClosed := false, withBuf := false,
    events := [Event.inProgressSet name] }

/-- The stats update in `Account.read` (lines 144-151): add `n` to the
sampling window and total, then report to `Stats.Bytes` and the bandwidth
limiter. -/
def Account.accountBytes (a : Account) (n : Nat) : Account :=
  { a with
      lpBytes := a.lpBytes + (n : Int)
      bytes := a.bytes + (n : Int)
      events := a.events ++ [Event.statsBytes n, Event.limitBandwidth n] }

/-- The start-time update in `Account.read` (lines 135-139): set `start`
to now on the first read. -/
def Account.setStart (a : Account) (now : Nat) : Account :=
  if a.start.isNone then { a with start := some now } else a

/-- Read semantics of a reader value, threading the accounting state.
A `plain` reader pops its script head (an exhausted script keeps
returning `(0, io.EOF)`); `acctStream inner` is `accountStream.Read`
(line 316-318) which is `acc.read(inner, p)` (lines 133-153): record the
start time, read the inner stream, then account the returned `n`.

`async` delegates to its inner reader.  Modelled from the spec: the
asyncreader buffering collaborator is external to this package (spec
section 6); per the spec it delivers the source stream's bytes with
look-ahead and is otherwise transparent to the data. -/
def readRdr (now : Nat) : Rdr → Account → RRes × Rdr × Account
  | Rdr.plain id [], a => ((0, some Err.eof), Rdr.plain id [], a)
  | Rdr.plain id (r :: rs), a => (r, Rdr.plain id rs, a)
  | Rdr.async inner b, a =>
      let x := readRdr now inner a
      (x.1, Rdr.async x.2.1 b, x.2.2)
  | Rdr.acctStream inner, a =>
      let x := readRdr now inner (a.setStart now)
      (x.1, Rdr.acctStream x.2.1, x.2.2.accountBytes x.1.1)

/-- `Account.read` (lines 133-153): set the start time, read from the
given reader, add the returned `n` to the stats, report it, and return
the underlying `(n, err)` unchanged. -/
def Account.read (a : Account) (now : Nat) (inr : Rdr) : RRes × Rdr × Account :=
  let x := readRdr now inr (a.setStart now)
  (x.1, x.2.1, x.2.2.accountBytes x.1.1)

/-- `Account.Read` (lines 156-160): the public entry point, reading from
the current stream `acc.in`. -/
def Account.Read (a : Account) (now : Nat) : RRes × Account :=
  let x := a.read now a.inS
  (x.1, { x.2.2 with inS := x.2.1 })

/-- Iterate `Account.Read` `k` times, collecting the returned results. -/
def readN (now : Nat) : Nat → Account → List RRes × Account
  | 0, a => ([], a)
  | k + 1, a =>
      let x := a.Read now
      let y := readN now k x.2
      (x.1 :: y.1, y.2)

/-- `Account.Close` (lines 163-173).  `cf` models the underlying closer:
`cf s` is the error `s.Close()` returns.  If already closed, a no-op
returning nil; otherwise mark closed, close the exit channel, deregister
from the registry, and close the underlying closer. -/
def Account.Close (cf : Rdr → Option Err) (a : Account) : Option Err × Account :=
  if a.closed then (none, a)
  else
    (cf a.closeS,
     { a with
         closed := true
         exitClosed := true
         events := a.events ++
           [Event.closeExit, Event.inProgressClear a.name,
            Event.closeUnderlying a.closeS] })

/-- Iterate `Account.Close` `n` times, collecting the returned errors. -/
def closeIter (cf : Rdr → Option Err) : Nat → Account → List (Option Err) × Account
  | 0, a => ([], a)
  | n + 1, a =>
      let x := a.Close cf
      let y := closeIter cf n x.2
      (x.1 :: y.1, y.2)

/-- `Account.progress` (lines 177-185): nil-safe snapshot of
`(bytes, size)`. -/
def Account.progress : Option Account → Int × Int
  | none => (0, 0)
  | some a => (a.bytes, a.size)

/-- Nanoseconds per second (`time.Second`). -/
def nsPerSec : ℚ := 1000000000

/-- `Account.speed` (lines 190-204): nil-safe; `(0, 0)` when no bytes
read; otherwise overall bytes/sec since the first read and the moving
average value. -/
def Account.speed (now : Nat) : Option Account → ℚ × ℚ
  | none => (0, 0)
  | some a =>
      if a.bytes = 0 then (0, 0)
      else
        ((a.bytes : ℚ) / (((now : ℚ) - ((a.start.getD 0 : Nat) : ℚ)) / nsPerSec),
         a.avg)

/-- Truncation toward zero of a rational, Go's `int(f)` conversion. -/
def ratTrunc (q : ℚ) : Int := if q < 0 then ⌈q⌉ else ⌊q⌋

/-- `Account.eta` (lines 209-229): nil / unknown-size / zero-bytes give
`ok = false`; nothing left gives `(0, true)`; a non-positive average
gives `ok = false`; otherwise remaining bytes over the average, truncated
to whole seconds (the result is the number of whole seconds; the Go code
wraps it as a `time.Duration` of that many seconds). -/
def Account.eta : Option Account → Int × Bool
  | none => (0, false)
  | some a =>
      if a.size ≤ 0 then (0, false)
      else if a.bytes = 0 then (0, false)
      else
        let left := a.size - a.bytes
        if left ≤ 0 then (0, true)
        else if a.avg ≤ 0 then (0, false)
        else (ratTrunc ((left : ℚ) / a.avg), true)

/-- The name-truncation fragment of `Account.String` (lines 244-250):
when a positive budget is configured and the name is longer, keep the
last `maxLen` characters and prefix an ellipsis. -/
def truncateName (maxLen : Nat) (nm : List Char) : List Char :=
  if 0 < maxLen then
    if maxLen < nm.length then
      '.' :: '.' :: '.' :: nm.drop (nm.length - maxLen)
    else nm
  else nm

/-- The rendered name of `Account.String`, from the configured
`StatsFileNameLength`. -/
def Account.renderName (env : Env) (a : Account) : List Char :=
  truncateName env.statsFileNameLength a.name.data

/-- The percentage fragment of `Account.String` (lines 256-259), from the
`progress()` snapshot `(a, b)`: `int(100 * float64(a) / float64(b))` when
`b > 0`, else `0`. -/
def percentageDone (a b : Int) : Int :=
  if 0 < b then ratTrunc ((100 * (a : ℚ)) / (b : ℚ)) else 0

/-- The percentage `Account.String` renders for an account. -/
def Account.percentage (a : Account) : Int :=
  percentageDone (Account.progress (some a)).1 (Account.progress (some a)).2

/-- `Account.StopBuffering` (lines 92-96): if the current stream is an
asyncreader, abandon it (an external effect on the buffer, recorded as a
ghost event). -/
def Account.StopBuffering (a : Account) : Account :=
  match a.inS with
  | Rdr.async _ _ => { a with events := a.events ++ [Event.abandon a.inS] }
  | _ => a

/-- The buffer-depth computation of `Account.WithBuffer` (lines 65-70):
`int(int64(fs.Config.BufferSize) / asyncreader.BufferSize)` when the size
is at least the budget or unknown, else `int(acc.size /
asyncreader.BufferSize)` (Go division truncates toward zero). -/
def bufferDepth (env : Env) (size : Int) : Int :=
  if size ≥ env.bufferSize ∨ size = -1 then
    Int.tdiv env.bufferSize env.asyncBufferSize
  else
    Int.tdiv size env.asyncBufferSize

/-- `Account.WithBuffer` (lines 63-82): record that buffering was
requested, compute the buffer depth; when positive, ask
`asyncreader.New(origIn, buffers)` for a buffering layer: on success
install it as `in`/`close`, on failure log and leave the stream
unbuffered. -/
def Account.WithBuffer (env : Env) (a : Account) : Account :=
  let a1 := { a with withBuf := true }
  let buffers := bufferDepth env a1.size
  if 0 < buffers then
    if env.asyncNewOK a1.origIn buffers then
      let rc := Rdr.async a1.origIn buffers
      { a1 with inS := rc, closeS := rc }
    else
      { a1 with events := a1.events ++ [Event.errorf a1.name] }
  else a1

/-- `Account.UpdateReader` (lines 100-108): stop any active buffering,
install the new source as `in`/`close`/`origIn`, and call `WithBuffer`
(unconditionally). -/
def Account.UpdateReader (env : Env) (a : Account) (newIn : Rdr) : Account :=
  let a1 := a.StopBuffering
  let a2 := { a1 with inS := newIn, closeS := newIn, origIn := newIn }
  a2.WithBuffer env

/-- Does a reader implement the `Accounter` interface (lines 321-326)?
Among the modelled readers, only the `accountStream` adapter does. -/
def Rdr.isAccounter : Rdr → Bool
  | Rdr.acctStream _ => true
  | _ => false

/-- `UnWrap` (lines 340-346): a non-`Accounter` comes back unchanged with
an identity rewrap; an `Accounter` yields its `OldStream()` (line 301)
and its `WrapStream` (lines 311-313, which is `acc.WrapStream`, lines
287-292: wrap the reader in a new `accountStream` on the same account). -/
def UnWrap : Rdr → Rdr × (Rdr → Rdr)
  | Rdr.acctStream inner => (inner, Rdr.acctStream)
  | r => (r, fun x => x)

/-- One `UnWrap`-then-rewrap round trip on a reader. -/
def roundTrip (r : Rdr) : Rdr := (UnWrap r).2 (UnWrap r).1

/-- Does a reader chain contain no accounting stage? -/
def Rdr.acctFree : Rdr → Bool
  | Rdr.plain _ _ => true
  | Rdr.async inner _ => inner.acctFree
  | Rdr.acctStream _ => false

/-- Pure read semantics of an accounting-free reader: the result and the
advanced reader (the account is untouched on such a reader). -/
def readPure : Rdr → RRes × Rdr
  | Rdr.plain id [] => ((0, some Err.eof), Rdr.plain id [])
  | Rdr.plain id (r :: rs) => (r, Rdr.plain id rs)
  | Rdr.async inner b =>
      let x := readPure inner
      (x.1, Rdr.async x.2 b)
  | Rdr.acctStream inner =>
      let x := readPure inner
      (x.1, Rdr.acctStream x.2)

/-- Count of underlying-closer invocations in an event log. -/
def countCloseUnderlying (es : List Event) : Nat :=
  (es.filter fun e => match e with | Event.closeUnderlying _ => true | _ => false).length

/-- Count of exit-channel closes in an event log. -/
def countCloseExit (es : List Event) : Nat :=
  (es.filter fun e => match e with | Event.closeExit => true | _ => false).length

/-- Count of in-progress-registry deregistrations in an event log. -/
def countInProgressClear (es : List Event) : Nat :=
  (es.filter fun e => match e with | Event.inProgressClear _ => true | _ => false).length

/-- The buffer-depth rule in the words of the spec: the global budget
divided by the per-buffer-unit capacity when the size is unknown (-1) or
at least the budget, and the declared size divided by the per-buffer-unit
capacity otherwise. -/
def specBufferDepth (budget unit size : Int) : Int :=
  if size = -1 ∨ size ≥ budget then Int.tdiv budget unit
  else Int.tdiv size unit

/-- Is a reader the asyncreader buffering layer (the type check of
`StopBuffering`, line 93)? -/
def Rdr.isAsync : Rdr → Bool
  | Rdr.async _ _ => true
  | _ => false

/-! ### Shared concrete examples used by witnesses -/

/-- An example account: a fresh core over an empty plain reader with the
given size, bytes-read and moving-average value patched in. -/
def exAcct (size bytes : Int) (avg : ℚ) : Account :=
  { NewAccountSizeName (Rdr.plain 0 []) size "f" 0 with
      bytes := bytes
      avg := avg }

/-- An example environment. -/
def exEnv : Env :=
  { bufferSize := 2, asyncBufferSize := 1,
    asyncNewOK := fun _ _ => true, statsFileNameLength := 5 }

/-! ### C7: total-safety of Progress / Speed / ETA -/

/-- C7: `Progress`, `Speed` and `ETA` are total-safe: invoked on a nil
core, `progress` returns `(0, 0)`, `speed` returns `(0, 0)` and `eta`
returns `ok = false`; and `speed` on a core from which zero bytes have
been read returns `(0, 0)` for both the overall and the smoothed rate. -/
theorem progress_speed_eta_total_safe :
    Account.progress none = (0, 0) ∧
    (∀ now : Nat, Account.speed now none = (0, 0)) ∧
    Account.eta none = (0, false) ∧
    (∀ (now : Nat) (a : Account), a.bytes = 0 →
      Account.speed now (some a) = (0, 0)) := by
  refine ⟨rfl, fun _ => rfl, rfl, fun now a h => ?_⟩
  simp [Account.speed, h]

/-- Witness for C7 at a concrete zero-read core. -/
theorem progress_speed_eta_total_safe_witness :
    (exAcct 10 0 0).bytes = 0 ∧ Account.speed 5 (some (exAcct 10 0 0)) = (0, 0) :=
  ⟨rfl, progress_speed_eta_total_safe.2.2.2 5 (exAcct 10 0 0) rfl⟩

/-! ### C4: ETA computation -/

/-- C4: `eta` returns `ok = false` when the declared size is non-positive
or unknown, or when no bytes have been read; when the remaining bytes are
non-positive it returns `(0, true)`; when the smoothed average is
non-positive it returns `ok = false`; otherwise it returns the remaining
bytes divided by the smoothed average, truncated to whole seconds (equal
to the floor, the quotient being positive), with `ok = true`. -/
theorem eta_spec (a : Account) :
    Account.eta none = (0, false) ∧
    (a.size ≤ 0 → Account.eta (some a) = (0, false)) ∧
    (0 < a.size → a.bytes = 0 → Account.eta (some a) = (0, false)) ∧
    (0 < a.size → a.bytes ≠ 0 → a.size - a.bytes ≤ 0 →
      Account.eta (some a) = (0, true)) ∧
    (0 < a.size → a.bytes ≠ 0 → 0 < a.size - a.bytes → a.avg ≤ 0 →
      Account.eta (some a) = (0, false)) ∧
    (0 < a.size → a.bytes ≠ 0 → 0 < a.size - a.bytes → 0 < a.avg →
      Account.eta (some a) =
        (ratTrunc (((a.size - a.bytes : Int) : ℚ) / a.avg), true) ∧
      ratTrunc (((a.size - a.bytes : Int) : ℚ) / a.avg) =
        ⌊((a.size - a.bytes : Int) : ℚ) / a.avg⌋) := by
  refine ⟨rfl, ?_, ?_, ?_, ?_, ?_⟩
  · intro h; simp [Account.eta, h]
  · intro h1 h2; simp [Account.eta, h2, not_le.mpr h1]
  · intro h1 h2 h3; simp [Account.eta, h2, not_le.mpr h1, h3]
  · intro h1 h2 h3 h4
    simp [Account.eta, h2, not_le.mpr h1, not_le.mpr h3, h4]
  · intro h1 h2 h3 h4
    have hq : (0 : ℚ) < ((a.size - a.bytes : Int) : ℚ) / a.avg := by
      apply div_pos _ h4
      exact_mod_cast h3
    constructor
    · simp [Account.eta, h2, not_le.mpr h1, not_le.mpr h3, not_le.mpr h4]
    · unfold ratTrunc
      rw [if_neg (not_lt.mpr (le_of_lt hq))]

/-- Witness for C4: size 1000, 250 bytes read, smoothed speed 50 gives an
ETA of 15 whole seconds. -/
theorem eta_spec_witness :
    0 < (exAcct 1000 250 50).size ∧ (exAcct 1000 250 50).bytes ≠ 0 ∧
    0 < (exAcct 1000 250 50).size - (exAcct 1000 250 50).bytes ∧
    0 < (exAcct 1000 250 50).avg ∧
    Account.eta (some (exAcct 1000 250 50)) = (15, true) := by
  have h := (eta_spec (exAcct 1000 250 50)).2.2.2.2.2
    (by norm_num [exAcct, NewAccountSizeName])
    (by norm_num [exAcct, NewAccountSizeName])
    (by norm_num [exAcct, NewAccountSizeName])
    (by norm_num [exAcct, NewAccountSizeName])
  refine ⟨by norm_num [exAcct, NewAccountSizeName],
    by norm_num [exAcct, NewAccountSizeName],
    by norm_num [exAcct, NewAccountSizeName],
    by norm_num [exAcct, NewAccountSizeName], ?_⟩
  rw [h.1]
  norm_num [exAcct, NewAccountSizeName, ratTrunc]

/-! ### C8: name truncation and percentage in the rendered line -/

/-- C8: when a positive maximum name length is configured and the name is
longer, the rendered name is the ellipsis marker followed by exactly the
last `maxLen` characters of the name; with maximum length `0` the name is
not truncated; and the rendered percentage is `0` when the declared size
is unknown or zero. -/
theorem render_truncation (env : Env) (a : Account) :
    (0 < env.statsFileNameLength →
      env.statsFileNameLength < a.name.data.length →
      Account.renderName env a =
        '.' :: '.' :: '.' ::
          a.name.data.drop (a.name.data.length - env.statsFileNameLength) ∧
      (a.name.data.drop
          (a.name.data.length - env.statsFileNameLength)).length =
        env.statsFileNameLength) ∧
    (env.statsFileNameLength = 0 → Account.renderName env a = a.name.data) ∧
    (a.size ≤ 0 → a.percentage = 0) := by
  refine ⟨?_, ?_, ?_⟩
  · intro h1 h2
    have h2' : env.statsFileNameLength < a.name.length := h2
    constructor
    · simp [Account.renderName, truncateName, h1, h2, h2']
    · rw [List.length_drop]
      omega
  · intro h; simp [Account.renderName, truncateName, h]
  · intro h
    simp [Account.percentage, percentageDone, Account.progress, not_lt.mpr h]

/-- Witness for C8: the name abcdefghij with maximum length 5 renders as
the ellipsis followed by its last five characters, fghij. -/
theorem render_truncation_witness :
    0 < exEnv.statsFileNameLength ∧
    exEnv.statsFileNameLength <
      ({ exAcct 10 0 0 with name := "abcdefghij" } : Account).name.data.length ∧
    Account.renderName exEnv { exAcct 10 0 0 with name := "abcdefghij" } =
      '.' :: '.' :: '.' :: ['f', 'g', 'h', 'i', 'j'] := by
  have h := (render_truncation exEnv
    { exAcct 10 0 0 with name := "abcdefghij" }).1 (by decide) (by decide)
  exact ⟨by decide, by decide, by rw [h.1]; decide⟩

/-! ### C10: percentage has no upper clamp -/

/-- C10: for a positive declared size the rendered percentage is the
integer part of 100 times bytes-read over declared-size, with no upper
clamp: when bytes-read is twice the declared size the rendered
percentage is 200. -/
theorem percentage_no_clamp (a : Account) :
    (0 < a.size → 0 ≤ a.bytes →
      a.percentage = ⌊(100 * (a.bytes : ℚ)) / (a.size : ℚ)⌋) ∧
    (0 < a.size → a.bytes = 2 * a.size →
      a.percentage = 200 ∧ 100 < a.percentage) := by
  constructor
  · intro h1 h2
    have hq : (0 : ℚ) ≤ (100 * (a.bytes : ℚ)) / (a.size : ℚ) := by
      apply div_nonneg
      · positivity
      · exact_mod_cast le_of_lt h1
    simp [Account.percentage, percentageDone, Account.progress, h1,
      ratTrunc, not_lt.mpr hq]
  · intro h1 h2
    have hs : ((a.size : ℚ)) ≠ 0 := by
      exact_mod_cast ne_of_gt h1
    have hv : (100 * (a.bytes : ℚ)) / (a.size : ℚ) = 200 := by
      rw [h2]
      push_cast
      field_simp
      ring
    have : a.percentage = 200 := by
      simp [Account.percentage, percentageDone, Account.progress, h1, hv,
        ratTrunc]
    exact ⟨this, by omega⟩

/-- Witness for C10 at size 5 and 10 bytes read: 200 percent. -/
theorem percentage_no_clamp_witness :
    0 < (exAcct 5 10 0).size ∧ (exAcct 5 10 0).bytes = 2 * (exAcct 5 10 0).size ∧
    (exAcct 5 10 0).percentage = 200 := by
  have h := (percentage_no_clamp (exAcct 5 10 0)).2
    (by norm_num [exAcct, NewAccountSizeName])
    (by norm_num [exAcct, NewAccountSizeName])
  exact ⟨by norm_num [exAcct, NewAccountSizeName],
    by norm_num [exAcct, NewAccountSizeName], h.1⟩

/-! ### C2: UnWrap / rewrap protocol -/

/-- An UnWrap-then-rewrap round trip reproduces the reader. -/
theorem roundTrip_eq (r : Rdr) : roundTrip r = r := by
  cases r <;> rfl

/-- C2: `UnWrap` on a reader that does not implement `Accounter` returns
it unchanged with an identity rewrap; on the `accountStream` `Accounter`
it returns the current inner stream and a rewrap function such that, for
any reader `x`, reading the rewrapped stream accounts bytes into the
account identically to the original accounting stage applied to `x`; and
any number of UnWrap/rewrap round trips leaves the reader (hence its
read-accounting behaviour) unchanged. -/
theorem unWrap_spec (r inner : Rdr) :
    (r.isAccounter = false →
      (UnWrap r).1 = r ∧ ∀ x : Rdr, (UnWrap r).2 x = x) ∧
    ((UnWrap (Rdr.acctStream inner)).1 = inner ∧
      ∀ (x : Rdr) (now : Nat) (a : Account),
        readRdr now ((UnWrap (Rdr.acctStream inner)).2 x) a =
          readRdr now (Rdr.acctStream x) a) ∧
    (∀ k : Nat, roundTrip^[k] r = r) := by
  refine ⟨?_, ⟨rfl, fun x now a => rfl⟩, ?_⟩
  · intro h
    cases r with
    | plain id rs => exact ⟨rfl, fun x => rfl⟩
    | async i b => exact ⟨rfl, fun x => rfl⟩
    | acctStream i => simp [Rdr.isAccounter] at h
  · intro k
    induction k with
    | zero => rfl
    | succ m ih => rw [Function.iterate_succ_apply, roundTrip_eq, ih]

/-- Witness for C2 at a concrete plain reader. -/
theorem unWrap_spec_witness :
    (Rdr.plain 0 [(3, none)]).isAccounter = false ∧
    (UnWrap (Rdr.plain 0 [(3, none)])).1 = Rdr.plain 0 [(3, none)] ∧
    (UnWrap (Rdr.plain 0 [(3, none)])).2 (Rdr.plain 7 []) = Rdr.plain 7 [] := by
  have h := (unWrap_spec (Rdr.plain 0 [(3, none)]) (Rdr.plain 1 [])).1 rfl
  exact ⟨rfl, h.1, h.2 (Rdr.plain 7 [])⟩

/-! ### C3: Close idempotence -/

/-- A second call to `Close` on an already-closed account is a no-op
returning success. -/
theorem close_on_closed (cf : Rdr → Option Err) (a : Account)
    (h : a.closed = true) : a.Close cf = (none, a) := by
  simp [Account.Close, h]

/-- Iterated `Close` on an already-closed account only returns nils. -/
theorem closeIter_closed (cf : Rdr → Option Err) (k : Nat) (a : Account)
    (h : a.closed = true) :
    closeIter cf k a = (List.replicate k none, a) := by
  induction k with
  | zero => rfl
  | succ m ih =>
      simp [closeIter, close_on_closed cf a h, ih, List.replicate_succ]

/-- C3: on a not-yet-closed account, `Close` called `n ≥ 1` times returns
the underlying closer's error on the first call and success on every
later call, marks the account closed, closes the sampler exit channel
exactly once, deregisters from the in-progress registry exactly once, and
invokes the underlying closer exactly once. -/
theorem close_idempotent (cf : Rdr → Option Err) (a : Account) (n : Nat)
    (h : a.closed = false) (hn : 1 ≤ n) :
    (closeIter cf n a).1 = cf a.closeS :: List.replicate (n - 1) none ∧
    (closeIter cf n a).2.closed = true ∧
    (closeIter cf n a).2.exitClosed = true ∧
    countCloseUnderlying (closeIter cf n a).2.events =
      countCloseUnderlying a.events + 1 ∧
    countCloseExit (closeIter cf n a).2.events = countCloseExit a.events + 1 ∧
    countInProgressClear (closeIter cf n a).2.events =
      countInProgressClear a.events + 1 := by
  obtain ⟨m, rfl⟩ : ∃ m, n = m + 1 := ⟨n - 1, by omega⟩
  have hstep : a.Close cf =
      (cf a.closeS,
       { a with
           closed := true
           exitClosed := true
           events := a.events ++
             [Event.closeExit, Event.inProgressClear a.name,
              Event.closeUnderlying a.closeS] }) := by
    simp [Account.Close, h]
  have hrest := closeIter_closed cf m
    { a with
        closed := true
        exitClosed := true
        events := a.events ++
          [Event.closeExit, Event.inProgressClear a.name,
           Event.closeUnderlying a.closeS] } rfl
  simp only [closeIter, hstep, hrest]
  refine ⟨by simp, by simp, by simp, ?_, ?_, ?_⟩ <;>
    simp [countCloseUnderlying, countCloseExit, countInProgressClear,
      List.filter_append]

/-- Witness for C3: three Close calls on a fresh account return the
underlying error then two successes, with one underlying close. -/
theorem close_idempotent_witness :
    (NewAccountSizeName (Rdr.plain 0 []) 10 "f" 0).closed = false ∧
    (closeIter (fun _ => some (Err.other 7)) 3
        (NewAccountSizeName (Rdr.plain 0 []) 10 "f" 0)).1 =
      [some (Err.other 7), none, none] ∧
    countCloseUnderlying (closeIter (fun _ => some (Err.other 7)) 3
        (NewAccountSizeName (Rdr.plain 0 []) 10 "f" 0)).2.events = 1 ∧
    countCloseExit (closeIter (fun _ => some (Err.other 7)) 3
        (NewAccountSizeName (Rdr.plain 0 []) 10 "f" 0)).2.events = 1 := by
  have h := close_idempotent (fun _ => some (Err.other 7))
    (NewAccountSizeName (Rdr.plain 0 []) 10 "f" 0) 3 rfl (by norm_num)
  refine ⟨rfl, ?_, ?_, ?_⟩
  · rw [h.1]; rfl
  · rw [h.2.2.2.1]; rfl
  · rw [h.2.2.2.2.1]; rfl

/-! ### C1: read accounting -/

/-- Setting the start time does not change any counter or stream. -/
theorem setStart_fields (a : Account) (now : Nat) :
    (a.setStart now).bytes = a.bytes ∧ (a.setStart now).lpBytes = a.lpBytes ∧
    (a.setStart now).inS = a.inS ∧ (a.setStart now).size = a.size := by
  unfold Account.setStart
  split <;> exact ⟨rfl, rfl, rfl, rfl⟩

/-- Reading an accounting-free reader returns the pure read result and
leaves the accounting state untouched. -/
theorem readRdr_acctFree (r : Rdr) (h : r.acctFree = true) (now : Nat)
    (a : Account) :
    readRdr now r a = ((readPure r).1, (readPure r).2, a) := by
  induction r generalizing a with
  | plain id rs => cases rs <;> rfl
  | async inner b ih =>
      simp only [Rdr.acctFree] at h
      simp [readRdr, readPure, ih h]
  | acctStream inner ih => simp [Rdr.acctFree] at h

/-- `Account.read` on an accounting-free reader: the underlying result is
returned unchanged and exactly its byte count is accounted. -/
theorem account_read_free (a : Account) (now : Nat) (inr : Rdr)
    (h : inr.acctFree = true) :
    a.read now inr =
      ((readPure inr).1, (readPure inr).2,
       (a.setStart now).accountBytes (readPure inr).1.1) := by
  unfold Account.read
  rw [readRdr_acctFree inr h]

/-- One step of `readN` on an account whose current stream is a plain
scripted reader. -/
theorem readN_plain_step (now : Nat) (id : Nat) (r : RRes) (rs : List RRes)
    (a : Account) (h : a.inS = Rdr.plain id (r :: rs)) :
    a.Read now =
      (r, { (a.setStart now).accountBytes r.1 with inS := Rdr.plain id rs }) := by
  unfold Account.Read
  rw [h, account_read_free a now (Rdr.plain id (r :: rs)) rfl]
  rfl

/-- Iterating `Read` over a plain scripted reader returns the script
unchanged and accumulates exactly the scripted byte counts into `bytes`
and the sampling window `lpBytes`. -/
theorem readN_plain (now : Nat) (id : Nat) :
    ∀ (rs : List RRes) (a : Account), a.inS = Rdr.plain id rs →
      (readN now rs.length a).1 = rs ∧
      (readN now rs.length a).2.bytes =
        a.bytes + (rs.map fun p => (p.1 : Int)).sum ∧
      (readN now rs.length a).2.lpBytes =
        a.lpBytes + (rs.map fun p => (p.1 : Int)).sum := by
  intro rs
  induction rs with
  | nil => intro a h; simp [readN]
  | cons r rs ih =>
      intro a h
      have hstep := readN_plain_step now id r rs a h
      have hrest := ih { (a.setStart now).accountBytes r.1 with inS := Rdr.plain id rs } rfl
      simp only [List.length_cons, readN, hstep]
      refine ⟨by rw [hrest.1], ?_, ?_⟩
      · rw [hrest.2.1]
        simp [Account.accountBytes, (setStart_fields a now).1]
        ring
      · rw [hrest.2.2]
        simp [Account.accountBytes, (setStart_fields a now).2.1]
        ring

/-- C1: a `Read` call on a core whose stream chain carries no accounting
stage returns the underlying reader's `(n, err)` result unchanged (errors
included) and adds exactly the returned `n` to `bytesRead` and to the
one-second sampling window; and over a whole scripted sequence of reads
the outputs are the script and `Progress().bytesRead` is the sum of the
scripted byte counts, starting from 0 on a fresh core. -/
theorem read_accounting (a : Account) (now id : Nat) (rs : List RRes)
    (size : Int) (nm : String) :
    (a.inS.acctFree = true →
      (a.Read now).1 = (readPure a.inS).1 ∧
      (a.Read now).2.bytes = a.bytes + ((a.Read now).1.1 : Int) ∧
      (a.Read now).2.lpBytes = a.lpBytes + ((a.Read now).1.1 : Int)) ∧
    (a.inS = Rdr.plain id rs →
      (readN now rs.length a).1 = rs ∧
      (Account.progress (some (readN now rs.length a).2)).1 =
        a.bytes + (rs.map fun p => (p.1 : Int)).sum) ∧
    (Account.progress (some (readN now rs.length
        (NewAccountSizeName (Rdr.plain id rs) size nm now)).2)).1 =
      (rs.map fun p => (p.1 : Int)).sum := by
  refine ⟨?_, ?_, ?_⟩
  · intro h
    unfold Account.Read
    rw [account_read_free _ _ _ h]
    refine ⟨rfl, ?_, ?_⟩
    · simp [Account.accountBytes, (setStart_fields a now).1]
    · simp [Account.accountBytes, (setStart_fields a now).2.1]
  · intro h
    have hh := readN_plain now id rs a h
    exact ⟨hh.1, by simp [Account.progress, hh.2.1]⟩
  · have hh := readN_plain now id rs (NewAccountSizeName (Rdr.plain id rs) size nm now) rfl
    show (readN now rs.length (NewAccountSizeName (Rdr.plain id rs) size nm now)).2.bytes = _
    rw [hh.2.1]
    simp [NewAccountSizeName]

/-- Witness for C1: a fresh core over the script (3, nil), (4, nil),
(0, EOF) returns the script verbatim and reports 7 bytes read. -/
theorem read_accounting_witness :
    (NewAccountSizeName (Rdr.plain 0 [(3, none), (4, none), (0, some Err.eof)]) 10 "f" 0).inS =
      Rdr.plain 0 [(3, none), (4, none), (0, some Err.eof)] ∧
    (readN 0 3 (NewAccountSizeName
        (Rdr.plain 0 [(3, none), (4, none), (0, some Err.eof)]) 10 "f" 0)).1 =
      [(3, none), (4, none), (0, some Err.eof)] ∧
    (Account.progress (some (readN 0 3 (NewAccountSizeName
        (Rdr.plain 0 [(3, none), (4, none), (0, some Err.eof)]) 10 "f" 0)).2)).1 = 7 := by
  have h := (read_accounting
    (NewAccountSizeName (Rdr.plain 0 [(3, none), (4, none), (0, some Err.eof)]) 10 "f" 0)
    0 0 [(3, none), (4, none), (0, some Err.eof)] 10 "f").2.1 rfl
  norm_num at h
  refine ⟨rfl, h.1, ?_⟩
  rw [h.2]
  norm_num [NewAccountSizeName]

/-! ### C5 / C6: buffering control -/

/-- `StopBuffering` only appends an abandon event (when the current
stream is an asyncreader) and changes nothing else. -/
theorem stopBuffering_eq (a : Account) :
    a.StopBuffering =
      { a with events := a.events ++
          (if a.inS.isAsync = true then [Event.abandon a.inS] else []) } := by
  obtain ⟨i0, o0, c0, s0, n0, b0, st0, lt0, lb0, av0, cl0, ex0, wb0, ev0⟩ := a
  cases i0 <;> simp [Account.StopBuffering, Rdr.isAsync]

/-- Case analysis of `WithBuffer`: a non-positive depth leaves everything
but the `withBuf` flag unchanged; a positive depth installs the
asyncreader over `origIn` on success and only logs on failure. -/
theorem withBuffer_cases (env : Env) (a : Account) :
    (¬ 0 < bufferDepth env a.size →
      a.WithBuffer env = { a with withBuf := true }) ∧
    (0 < bufferDepth env a.size →
      env.asyncNewOK a.origIn (bufferDepth env a.size) = false →
      a.WithBuffer env =
        { a with
            withBuf := true
            events := a.events ++ [Event.errorf a.name] }) ∧
    (0 < bufferDepth env a.size →
      env.asyncNewOK a.origIn (bufferDepth env a.size) = true →
      a.WithBuffer env =
        { a with
            withBuf := true
            inS := Rdr.async a.origIn (bufferDepth env a.size)
            closeS := Rdr.async a.origIn (bufferDepth env a.size) }) := by
  refine ⟨?_, ?_, ?_⟩
  · intro h; simp [Account.WithBuffer, h]
  · intro h1 h2; simp [Account.WithBuffer, h1, h2]
  · intro h1 h2; simp [Account.WithBuffer, h1, h2]

/-- `UpdateReader` unfolded: stop buffering, swap all three stream
fields, then `WithBuffer`. -/
theorem updateReader_eq (env : Env) (a : Account) (newIn : Rdr) :
    a.UpdateReader env newIn =
      Account.WithBuffer env
        { a.StopBuffering with inS := newIn, closeS := newIn, origIn := newIn } :=
  rfl

/-- C6: `WithBuffer` computes the buffer depth exactly as the spec words
it (global budget over per-unit capacity when the size is unknown or at
least the budget, declared size over per-unit capacity otherwise); a zero
depth leaves the stream and the event log unchanged; and a failure of the
buffering collaborator is only logged, the transfer proceeding unbuffered
with `currentStream`/`closer` unchanged. -/
theorem withBuffer_spec (env : Env) (a : Account) :
    bufferDepth env a.size =
      specBufferDepth env.bufferSize env.asyncBufferSize a.size ∧
    (a.WithBuffer env).withBuf = true ∧
    (bufferDepth env a.size = 0 →
      (a.WithBuffer env).inS = a.inS ∧ (a.WithBuffer env).closeS = a.closeS ∧
      (a.WithBuffer env).events = a.events) ∧
    (0 < bufferDepth env a.size →
      env.asyncNewOK a.origIn (bufferDepth env a.size) = false →
      (a.WithBuffer env).inS = a.inS ∧ (a.WithBuffer env).closeS = a.closeS ∧
      (a.WithBuffer env).events = a.events ++ [Event.errorf a.name]) := by
  have hc := withBuffer_cases env a
  refine ⟨by simp [bufferDepth, specBufferDepth, or_comm], ?_, ?_, ?_⟩
  · by_cases h1 : 0 < bufferDepth env a.size
    · by_cases h2 : env.asyncNewOK a.origIn (bufferDepth env a.size) = true
      · rw [hc.2.2 h1 h2]
      · rw [hc.2.1 h1 (by simpa using h2)]
    · rw [hc.1 h1]
  · intro h
    rw [hc.1 (by omega)]
    exact ⟨rfl, rfl, rfl⟩
  · intro h1 h2
    rw [hc.2.1 h1 h2]
    exact ⟨rfl, rfl, rfl⟩

/-- Witness for C6: size -1 with budget 2 and unit capacity 1 gives depth
2; a failing buffering collaborator leaves the stream unchanged and logs. -/
theorem withBuffer_spec_witness :
    0 < bufferDepth
      { bufferSize := 2, asyncBufferSize := 1,
        asyncNewOK := fun _ _ => false, statsFileNameLength := 0 }
      (NewAccountSizeName (Rdr.plain 0 []) (-1) "f" 0).size ∧
    (Account.WithBuffer
        { bufferSize := 2, asyncBufferSize := 1,
          asyncNewOK := fun _ _ => false, statsFileNameLength := 0 }
        (NewAccountSizeName (Rdr.plain 0 []) (-1) "f" 0)).inS =
      Rdr.plain 0 [] ∧
    (Account.WithBuffer
        { bufferSize := 2, asyncBufferSize := 1,
          asyncNewOK := fun _ _ => false, statsFileNameLength := 0 }
        (NewAccountSizeName (Rdr.plain 0 []) (-1) "f" 0)).events =
      [Event.inProgressSet "f", Event.errorf "f"] := by
  have h := (withBuffer_spec
    { bufferSize := 2, asyncBufferSize := 1,
      asyncNewOK := fun _ _ => false, statsFileNameLength := 0 }
    (NewAccountSizeName (Rdr.plain 0 []) (-1) "f" 0)).2.2.2
    (by decide) (by decide)
  exact ⟨by decide, h.1, by rw [h.2.2]; rfl⟩

/-- Counterexample to C5 as stated: on a core for which buffering was
never requested (`withBuf = false`), `UpdateReader` nevertheless applies
buffering to the new source (the installed current stream is the
asyncreader wrapper, not the new source itself). -/
theorem updateReader_counterexample :
    (NewAccountSizeName (Rdr.plain 0 []) (-1) "f" 0).withBuf = false ∧
    (Account.UpdateReader
        { bufferSize := 2, asyncBufferSize := 1,
          asyncNewOK := fun _ _ => true, statsFileNameLength := 0 }
        (NewAccountSizeName (Rdr.plain 0 []) (-1) "f" 0)
        (Rdr.plain 1 [])).inS = Rdr.async (Rdr.plain 1 []) 2 ∧
    (Account.UpdateReader
        { bufferSize := 2, asyncBufferSize := 1,
          asyncNewOK := fun _ _ => true, statsFileNameLength := 0 }
        (NewAccountSizeName (Rdr.plain 0 []) (-1) "f" 0)
        (Rdr.plain 1 [])).inS ≠ Rdr.plain 1 [] := by
  refine ⟨rfl, by decide, by decide⟩

/-- C5 amended: `UpdateReader` stops any active buffering (the abandon
request is issued when the current stream is an asyncreader), installs
the new source as `currentStream`/`closer`/`originalStream`, then
unconditionally re-applies `WithBuffer` (marking buffering as requested
and wrapping the new source in the buffering layer exactly when the
computed depth is positive and the collaborator succeeds), and leaves the
accounting counters unchanged. -/
theorem updateReader_amended (env : Env) (a : Account) (newIn : Rdr) :
    (a.UpdateReader env newIn).origIn = newIn ∧
    (a.UpdateReader env newIn).withBuf = true ∧
    (a.UpdateReader env newIn).bytes = a.bytes ∧
    (a.UpdateReader env newIn).start = a.start ∧
    (a.UpdateReader env newIn).lpBytes = a.lpBytes ∧
    (a.UpdateReader env newIn).lpTime = a.lpTime ∧
    (a.UpdateReader env newIn).avg = a.avg ∧
    (a.UpdateReader env newIn).size = a.size ∧
    (a.inS.isAsync = true →
      Event.abandon a.inS ∈ (a.UpdateReader env newIn).events) ∧
    (¬ 0 < bufferDepth env a.size →
      (a.UpdateReader env newIn).inS = newIn ∧
      (a.UpdateReader env newIn).closeS = newIn) ∧
    (0 < bufferDepth env a.size →
      env.asyncNewOK newIn (bufferDepth env a.size) = false →
      (a.UpdateReader env newIn).inS = newIn ∧
      (a.UpdateReader env newIn).closeS = newIn) ∧
    (0 < bufferDepth env a.size →
      env.asyncNewOK newIn (bufferDepth env a.size) = true →
      (a.UpdateReader env newIn).inS = Rdr.async newIn (bufferDepth env a.size) ∧
      (a.UpdateReader env newIn).closeS =
        Rdr.async newIn (bufferDepth env a.size)) := by
  rw [updateReader_eq, stopBuffering_eq]
  have hc := withBuffer_cases env
    { a with
        inS := newIn
        origIn := newIn
        closeS := newIn
        events := a.events ++
          (if a.inS.isAsync = true then [Event.abandon a.inS] else []) }
  by_cases h1 : 0 < bufferDepth env a.size
  · by_cases h2 : env.asyncNewOK newIn (bufferDepth env a.size) = true
    · rw [hc.2.2 h1 h2]
      refine ⟨rfl, rfl, rfl, rfl, rfl, rfl, rfl, rfl, ?_, ?_, ?_, ?_⟩
      · intro h; simp [h]
      · intro h; omega
      · intro _ h; rw [h2] at h; cases h
      · intro _ _; exact ⟨rfl, rfl⟩
    · rw [hc.2.1 h1 (by simpa using h2)]
      refine ⟨rfl, rfl, rfl, rfl, rfl, rfl, rfl, rfl, ?_, ?_, ?_, ?_⟩
      · intro h; simp [h]
      · intro h; omega
      · intro _ _; exact ⟨rfl, rfl⟩
      · intro _ h; exact absurd h h2
  · rw [hc.1 h1]
    refine ⟨rfl, rfl, rfl, rfl, rfl, rfl, rfl, rfl, ?_, ?_, ?_, ?_⟩
    · intro h; simp [h]
    · intro _; exact ⟨rfl, rfl⟩
    · intro h; omega
    · intro h; omega

/-- Witness for C5 amended at a concrete core: the new source is
installed as `origIn` and wrapped in the buffering layer. -/
theorem updateReader_amended_witness :
    0 < bufferDepth
      { bufferSize := 2, asyncBufferSize := 1,
        asyncNewOK := fun _ _ => true, statsFileNameLength := 0 }
      (NewAccountSizeName (Rdr.plain 0 []) (-1) "f" 0).size ∧
    (Account.UpdateReader
        { bufferSize := 2, asyncBufferSize := 1,
          asyncNewOK := fun _ _ => true, statsFileNameLength := 0 }
        (NewAccountSizeName (Rdr.plain 0 []) (-1) "f" 0)
        (Rdr.plain 1 [])).origIn = Rdr.plain 1 [] ∧
    (Account.UpdateReader
        { bufferSize := 2, asyncBufferSize := 1,
          asyncNewOK := fun _ _ => true, statsFileNameLength := 0 }
        (NewAccountSizeName (Rdr.plain 0 []) (-1) "f" 0)
        (Rdr.plain 1 [])).bytes =
      (NewAccountSizeName (Rdr.plain 0 []) (-1) "f" 0).bytes ∧
    (Account.UpdateReader
        { bufferSize := 2, asyncBufferSize := 1,
          asyncNewOK := fun _ _ => true, statsFileNameLength := 0 }
        (NewAccountSizeName (Rdr.plain 0 []) (-1) "f" 0)
        (Rdr.plain 1 [])).inS = Rdr.async (Rdr.plain 1 []) 2 := by
  have h := updateReader_amended
    { bufferSize := 2, asyncBufferSize := 1,
      asyncNewOK := fun _ _ => true, statsFileNameLength := 0 }
    (NewAccountSizeName (Rdr.plain 0 []) (-1) "f" 0)
    (Rdr.plain 1 [])
  have hd := h.2.2.2.2.2.2.2.2.2.2.2 (by decide) (by decide)
  exact ⟨by decide, h.1, h.2.2.1, by rw [hd.1]; rfl⟩
